import Mathlib

set_option autoImplicit false

/-!
Shallow embedding of the video playback engine of the repository
(`src/portable.3.8/video_engine.py` together with the proxy-path helpers of
`src/portable.3.8/settings.py`).

Modelling conventions:
* A decoded frame is represented by its absolute index (the decoder positioned
  at `p` decodes the frame with index `p`); frame indices and decoder positions
  are `Int`, as `current_frame_index` starts at `-1` in the source.
* The Python `deque` is a `List` whose head is the left end (the oldest entry);
  the Python dict `cache_index_map` is an association list whose observable
  interface (`dget`, `derase`, `dset`) matches dict lookup, `del` and
  item assignment; dict iteration order is never observable in the modelled
  code, so association-list order stands in for dict insertion order.
* `cv2.VideoCapture` is modelled by the fields `capOpen` (handle present and
  opened), `capPos` (`CAP_PROP_POS_FRAMES`, the index of the next frame a
  sequential `cap.read()` yields) and `total_frames`; a ghost counter
  `decodes` counts successful decoder reads.
-/

namespace RunnerAnalizator

/-- Dict lookup, `m.get(k)` / `k in m`: first binding of `k`, scanning left to
right. -/
def dget {α : Type} (k : Int) : List (Int × α) → Option α
  | [] => none
  | (k', v) :: m => if k' = k then some v else dget k m

/-- Dict deletion `del m[k]`: removes the binding(s) of `k`, keeping the
relative order of the rest. -/
def derase {α : Type} (k : Int) : List (Int × α) → List (Int × α)
  | [] => []
  | (k', v) :: m => if k' = k then derase k m else (k', v) :: derase k m

/-- Dict assignment `m[k] = v`.  The engine only ever assigns keys that are
absent (it checks `idx not in self.cache_index_map` first), in which case this
is a plain append of a new binding. -/
def dset {α : Type} (k : Int) (v : α) (m : List (Int × α)) : List (Int × α) :=
  derase k m ++ [(k, v)]

/-- The frame-cache pair owned by `VideoEngine`: the bounded deque
`self.cache` (head = left end = oldest entry), the lookup dict
`self.cache_index_map`, and the deque bound `self.CACHE_SIZE`
(= `cache.maxlen`). -/
structure FrameCache (α : Type) where
  cache : List (Int × α)
  cache_index_map : List (Int × α)
  maxlen : Nat
  deriving DecidableEq

/-- `VideoEngine._update_cache(idx, frame)` (video_engine.py lines 347-356).
Returns `none` when CPython would raise: `popleft` on an empty deque, which
can only happen with `maxlen = 0` (the settings dialog restricts
`cache_size` to `[10, 1000]`). -/
def update_cache {α : Type} (c : FrameCache α) (idx : Int) (f : α) :
    Option (FrameCache α) :=
  if (dget idx c.cache_index_map).isSome then
    some c
  else if c.cache.length = c.maxlen then
    match c.cache with
    | [] => none
    | (oldest_idx, _) :: rest =>
      let m := if (dget oldest_idx c.cache_index_map).isSome then
                 derase oldest_idx c.cache_index_map
               else c.cache_index_map
      some { cache := rest ++ [(idx, f)],
             cache_index_map := dset idx f m,
             maxlen := c.maxlen }
  else
    some { cache := c.cache ++ [(idx, f)],
           cache_index_map := dset idx f c.cache_index_map,
           maxlen := c.maxlen }

/-- Total wrapper of `update_cache` used by the engine operations; it agrees
with `update_cache` whenever `maxlen ≥ 1` (see `update_cache_total_agrees`). -/
def update_cacheT {α : Type} (c : FrameCache α) (idx : Int) (f : α) :
    FrameCache α :=
  (update_cache c idx f).getD c

/-- A sequence of `_update_cache` calls, stopping at the first raised
exception. -/
def putSeq {α : Type} (c : FrameCache α) : List (Int × α) → Option (FrameCache α)
  | [] => some c
  | (i, f) :: ops =>
    match update_cache c i f with
    | none => none
    | some c' => putSeq c' ops

/-- A cache read, `self.cache_index_map[idx]` / `idx in self.cache_index_map`:
a plain dict read, which mutates nothing (pure FIFO bound, not LRU). -/
def cacheGet {α : Type} (c : FrameCache α) (k : Int) :
    Option α × FrameCache α :=
  (dget k c.cache_index_map, c)

/-- The cache-resize block of `VideoEngine.update_settings_live`
(video_engine.py lines 165-175): keep the newest `new_cache` deque entries
(`old_data[-new_cache:]`), rebuild the deque with the new bound, then delete
every map key that no longer appears in the deque. -/
def resizeCache {α : Type} (c : FrameCache α) (new_cache : Nat) :
    FrameCache α :=
  if new_cache = c.maxlen then c
  else
    let old_data := if c.cache.length > new_cache then
                      c.cache.drop (c.cache.length - new_cache)
                    else c.cache
    let valid_indices := old_data.map Prod.fst
    { cache := old_data,
      cache_index_map :=
        c.cache_index_map.filter (fun p => decide (p.1 ∈ valid_indices)),
      maxlen := new_cache }

/-- `self.cache.clear(); self.cache_index_map.clear()` as done by
`load_internal` (lines 310-311) and `release` (lines 447-448). -/
def clearCache {α : Type} (c : FrameCache α) : FrameCache α :=
  { cache := [], cache_index_map := [], maxlen := c.maxlen }

/-- The deque/dict consistency invariant of the cache pair: the dict keys are
exactly the indices stored in the deque, and neither side holds a duplicate
index. -/
def cacheInv {α : Type} (c : FrameCache α) : Prop :=
  (∀ k : Int, (dget k c.cache_index_map).isSome ↔ k ∈ c.cache.map Prod.fst)
  ∧ (c.cache.map Prod.fst).Nodup
  ∧ (c.cache_index_map.map Prod.fst).Nodup

/-- The playback-relevant state of a `VideoEngine` together with its decoder
handle (`self.cap`). -/
structure EngineState where
  capOpen : Bool
  capPos : Int
  total_frames : Int
  current_frame_index : Int
  fc : FrameCache Int
  smart_seek_lookback : Int
  is_fast_seek : Bool
  decodes : Nat
  deriving DecidableEq

/-- `cap.read()`: succeeds exactly when the decoder position is a valid frame
index, yielding that frame (modelled by its index) and advancing the
position; the ghost counter `decodes` counts successful reads. -/
def capRead (s : EngineState) : Option Int × EngineState :=
  if s.capOpen ∧ 0 ≤ s.capPos ∧ s.capPos < s.total_frames then
    (some s.capPos,
     { s with capPos := s.capPos + 1, decodes := s.decodes + 1 })
  else (none, s)

/-- `cap.set(cv2.CAP_PROP_POS_FRAMES, t)`. -/
def capSetPos (s : EngineState) (t : Int) : EngineState := { s with capPos := t }

/-- `VideoEngine.read` (video_engine.py lines 358-371). -/
def read (s : EngineState) : (Bool × Option Int × Int) × EngineState :=
  if s.capOpen then
    match capRead s with
    | (some frame, s1) =>
      let pos0 := s1.capPos - 1
      let pos := if pos0 < 0 then s.current_frame_index + 1 else pos0
      let s2 := { s1 with current_frame_index := pos,
                          fc := update_cacheT s1.fc pos frame }
      ((true, some frame, pos), s2)
    | (none, s1) => ((false, none, s1.current_frame_index), s1)
  else ((false, none, s.current_frame_index), s)

/-- The `while self.current_frame_index < target_frame` loop of the
small-forward-step branch of `VideoEngine.seek` (lines 385-390).  `some r`
means the loop hit the early `return r`; `none` means it fell out of the
loop (`break` on a failed read, or the guard turning false).  The fuel is
only a termination device: `seek` passes enough of it that the fuel-0 case
is unreachable (each iteration performs one decoder read, and reads fail once
`capPos` reaches `total_frames`). -/
def seekAdvanceLoop : Nat → EngineState → Int →
    Option (Bool × Option Int × Int) × EngineState
  | 0, s, _ => (none, s)
  | fuel + 1, s, target =>
    if s.current_frame_index < target then
      match read s with
      | ((true, frame, _), s1) =>
        if s1.current_frame_index = target then (some (true, frame, target), s1)
        else seekAdvanceLoop fuel s1 target
      | ((false, _, _), s1) => (none, s1)
    else (none, s)

/-- The `while current_decode_pos <= target_frame` loop of the
backward-lookback branch of `VideoEngine.seek` (lines 413-422): raw
`cap.read()` calls, caching each decoded frame under `current_decode_pos`,
remembering the frame decoded at `target`.  Fuel as in `seekAdvanceLoop`
(each iteration advances `current_decode_pos` or breaks). -/
def lookbackLoop : Nat → EngineState → Int → Int → Option Int →
    Option Int × EngineState
  | 0, s, _, _, found => (found, s)
  | fuel + 1, s, pos, target, found =>
    if pos ≤ target then
      match capRead s with
      | (some frame, s1) =>
        let s2 := { s1 with fc := update_cacheT s1.fc pos frame }
        let found' := if pos = target then some frame else found
        lookbackLoop fuel s2 (pos + 1) target found'
      | (none, s1) => (found, s1)
    else (found, s)

/-- `target_frame = max(0, min(target_frame, self.total_frames - 1))`
(video_engine.py line 377). -/
def clampTarget (s : EngineState) (target : Int) : Int :=
  max 0 (min target (s.total_frames - 1))

/-- The shared fallthrough tail of `VideoEngine.seek` (lines 431-436):
position the decoder on the target, read once, report failure with the
current frame index if even that read fails. -/
def seekFallback (s : EngineState) (target : Int) :
    (Bool × Option Int × Int) × EngineState :=
  let s1 := capSetPos s target
  match read s1 with
  | ((true, frame, _), s2) => ((true, frame, target), s2)
  | ((false, _, _), s2) => ((false, none, s2.current_frame_index), s2)

/-- The strategy part of `VideoEngine.seek` reached when neither the cache
nor the small-forward-step branch produced a result (video_engine.py lines
399-429, plus the shared fallthrough): direct positional seek when
`smart_seek_lookback == 0`, else backward-lookback decode from
`max(0, target - lookback)` up to `target`. -/
def seekSlow (s1 : EngineState) (target : Int) :
    (Bool × Option Int × Int) × EngineState :=
  if s1.smart_seek_lookback = 0 then
    match read (capSetPos s1 target) with
    | ((true, frame, _), s3) => ((true, frame, s3.current_frame_index), s3)
    | ((false, _, _), s3) => seekFallback s3 target
  else
    match lookbackLoop
        ((target - max 0 (target - s1.smart_seek_lookback)).toNat + 2)
        (capSetPos s1 (max 0 (target - s1.smart_seek_lookback)))
        (max 0 (target - s1.smart_seek_lookback)) target none with
    | (some f, s3) =>
      ((true, some f, target), { s3 with current_frame_index := target })
    | (none, s3) => seekFallback s3 target

/-- The body of `VideoEngine.seek` after the open-check and the clamp
(video_engine.py lines 379-436); `target` is the already-clamped index, the
only target value any strategy decision ever sees: cache hit first, then the
small-forward-step branch (`0 < diff <= 10`) with its two early returns,
then fallthrough to `seekSlow`. -/
def seekClamped (s : EngineState) (target : Int) :
    (Bool × Option Int × Int) × EngineState :=
  match dget target s.fc.cache_index_map with
  | some f => ((true, some f, target), { s with current_frame_index := target })
  | none =>
    match (if 0 < target - s.current_frame_index
            ∧ target - s.current_frame_index ≤ 10 then
        match seekAdvanceLoop (s.total_frames.toNat + 1) s target with
        | (some res, sa) => (some res, sa)
        | (none, sa) =>
          match dget sa.current_frame_index sa.fc.cache_index_map with
          | some f => (some (true, some f, sa.current_frame_index), sa)
          | none => (none, sa)
      else (none, s)) with
    | (some res, s1) => (res, s1)
    | (none, s1) => seekSlow s1 target

/-- `VideoEngine.seek` (video_engine.py lines 373-436). -/
def seek (s : EngineState) (target_frame : Int) :
    (Bool × Option Int × Int) × EngineState :=
  if s.capOpen then seekClamped s (clampTarget s target_frame)
  else ((false, none, -1), s)

/-- The engine state right after a successful `load_internal` (lines 246-312):
freshly opened decoder at position 0, `current_frame_index = -1`, cleared
cache; `is_fast_seek`/`smart_seek_lookback` as chosen by the codec probe
(fast seek forces `lookback = 0`). -/
def loadedState (N lookback : Int) (fast : Bool) (C : Nat) : EngineState :=
  { capOpen := true, capPos := 0, total_frames := N,
    current_frame_index := -1,
    fc := { cache := [], cache_index_map := [], maxlen := C },
    smart_seek_lookback := lookback, is_fast_seek := fast, decodes := 0 }

/-- `n` successive `VideoEngine.read` calls (as the playback loop performs). -/
def readN : Nat → EngineState → EngineState
  | 0, s => s
  | n + 1, s => readN n (read s).2

/-- `VideoEngine.update_settings_live` (video_engine.py lines 164-185):
live cache resize plus, for non-fast-seek sources, the lookback update
(`use_gpu` has no bearing on the modelled state). -/
def update_settings_live (s : EngineState) (new_cache : Nat)
    (new_effort : Int) : EngineState :=
  let s1 := { s with fc := resizeCache s.fc new_cache }
  if s1.is_fast_seek then s1
  else { s1 with smart_seek_lookback := new_effort }

/-- The cache/position reset performed at the end of a successful
`VideoEngine.load_internal` (video_engine.py lines 309-311). -/
def load_internal_reset (s : EngineState) : EngineState :=
  { s with current_frame_index := -1, fc := clearCache s.fc }

/-- `VideoEngine.release` (lines 445-448): `full_stop` (drop the capture
handle) then clear both cache structures. -/
def release (s : EngineState) : EngineState :=
  { s with capOpen := false, fc := clearCache s.fc }

/-- The environment a `ProxyGeneratorThread.run` executes against: whether the
source opens, how many frames it yields, whether the requested-codec writer
and the `mp4v` fallback writer open, and when (if ever) `stop()` takes
effect.  `cancel_at = some k` means the stop flag reads `False` from the
`k`-th flag check of the read loop onward (the flag is monotone: once
cleared it stays cleared), `none` means `stop()` is never called. -/
structure TranscodeEnv where
  capOpens : Bool
  nframes : Nat
  writer_opens : Bool
  fallback_opens : Bool
  cancel_at : Option Nat
  deriving DecidableEq

/-- Outcome of a `ProxyGeneratorThread.run`: the `finished_signal` success
flag, whether a file exists at the (possibly fallback-renamed) output path
afterwards, and how many frames were read and written. -/
structure TranscodeResult where
  success : Bool
  output_exists : Bool
  frames_written : Nat
  deriving DecidableEq

/-- Value of `self._is_running` at the `i`-th check. -/
def transcodeFlag (cancel_at : Option Nat) (i : Nat) : Bool :=
  match cancel_at with
  | none => true
  | some k => decide (i < k)

/-- The `while self._is_running` read/rescale/write loop of
`ProxyGeneratorThread.run` (video_engine.py lines 97-122), with `r` frames
left in the source.  Returns the number of frames processed and the flag
value when the loop ended (`true`: ended by the `break` on a failed read;
`false`: ended by the cleared stop flag). -/
def transcodeLoop (cancel_at : Option Nat) : Nat → Nat → Nat × Bool
  | i, 0 => if transcodeFlag cancel_at i then (i, true) else (i, false)
  | i, r + 1 =>
    if transcodeFlag cancel_at i then transcodeLoop cancel_at (i + 1) r
    else (i, false)

/-- `ProxyGeneratorThread.run` (video_engine.py lines 33-135).  The output
file comes into existence when a writer opens on the output path; on the
cancellation path the file is removed (`os.remove`, modelled as succeeding)
before `finished_signal.emit(False, "")`. -/
def transcodeRun (env : TranscodeEnv) : TranscodeResult :=
  if env.capOpens then
    if env.writer_opens ∨ env.fallback_opens then
      let r := transcodeLoop env.cancel_at 0 env.nframes
      if r.2 then
        { success := true, output_exists := true, frames_written := r.1 }
      else
        { success := false, output_exists := false, frames_written := r.1 }
    else { success := false, output_exists := false, frames_written := 0 }
  else { success := false, output_exists := false, frames_written := 0 }

/-- The output-dimension computation of `ProxyGeneratorThread.run`
(video_engine.py lines 44-57).  The Python code computes
`new_width = int(width * (target_height / height))` in floating point; it is
modelled here in exact arithmetic as `width * target_height / height`
(truncating `Nat` division). -/
def computeProxyDims (width height target_height : Nat) : Nat × Nat :=
  let p := if 0 < target_height ∧ target_height < height then
             (width * target_height / height, target_height)
           else (width, height)
  (if p.1 % 2 ≠ 0 then p.1 + 1 else p.1,
   if p.2 % 2 ≠ 0 then p.2 + 1 else p.2)

/-- Paths and filenames are modelled as character lists; `os.path` separators
are `'/'`. -/
abbrev FsPath := List Char

/-- `os.path.basename`: everything after the last separator. -/
def basename (p : FsPath) : FsPath :=
  (p.reverse.takeWhile (fun c => decide (c ≠ '/'))).reverse

/-- The root part of `os.path.splitext`: everything before the last dot, or
the whole name when it has no dot. -/
def splitextRoot (f : FsPath) : FsPath :=
  if f.contains '.' then
    ((f.reverse.dropWhile (fun c => decide (c ≠ '.'))).drop 1).reverse
  else f

/-- `SettingsManager.get_proxy_extension` (settings.py lines 101-106):
`.avi` for the MJPG codec family, `.mp4` otherwise. -/
def get_proxy_extension (proxy_codec : List Char) : FsPath :=
  if proxy_codec = "MJPG".toList then ".avi".toList else ".mp4".toList

/-- The proxy filename `f"{name}_proxy_{quality}p{ext}"` built by
`VideoEngine.generate_proxy_path` from the original's stem. -/
def proxyFileName (name : FsPath) (quality : Nat) (ext : FsPath) : FsPath :=
  name ++ "_proxy_".toList ++ (toString quality).toList ++ 'p' :: ext

/-- `VideoEngine.generate_proxy_path(original_path, quality)`
(video_engine.py lines 317-321), joined under the settings' proxies
directory. -/
def generate_proxy_path (proxies_dir : FsPath) (proxy_codec : List Char)
    (original_path : FsPath) (quality : Nat) : FsPath :=
  proxies_dir ++ '/' ::
    proxyFileName (splitextRoot (basename original_path)) quality
      (get_proxy_extension proxy_codec)

/-- A single-`*` glob pattern `pre*suf` matched against a filename. -/
def globMatch (pre suf f : FsPath) : Bool :=
  decide (pre <+: f) && decide (suf <:+ f)
    && decide (pre.length + suf.length ≤ f.length)

/-- `VideoEngine.find_existing_proxy(original_path)` (video_engine.py lines
327-345) run against a listing of the proxies directory (filename, size
pairs): globs `{name}_proxy_*.avi` and `{name}_proxy_*.mp4` and accepts any
candidate larger than 1000 bytes. -/
def find_existing_proxy (listing : List (FsPath × Nat))
    (original_path : FsPath) : Bool :=
  if original_path = [] then false
  else
    let name := splitextRoot (basename original_path)
    (listing.any fun fc =>
      globMatch (name ++ "_proxy_".toList) (".avi".toList) fc.1
        && decide (fc.2 > 1000)) ||
    (listing.any fun fc =>
      globMatch (name ++ "_proxy_".toList) (".mp4".toList) fc.1
        && decide (fc.2 > 1000))

/-- Concrete capacity-2 cache used by witnesses. -/
def wCache2 : FrameCache Nat := ⟨[(0, 5), (1, 6)], [(0, 5), (1, 6)], 2⟩

/-- `wCache2` after the puts `(2, 7)` and `(3, 8)`. -/
def wCache2' : FrameCache Nat := ⟨[(2, 7), (3, 8)], [(2, 7), (3, 8)], 2⟩

/-- Concrete engine state used by witnesses: open 10-frame source, two
cached frames, capacity 2, lookback 5. -/
def wEngine : EngineState :=
  ⟨true, 3, 10, 2, ⟨[(1, 1), (2, 2)], [(1, 1), (2, 2)], 2⟩, 5, false, 3⟩

/-- `wEngine.fc` after `_update_cache(7, 7)` (FIFO-evicts index 1). -/
def wCacheC9 : FrameCache Int := ⟨[(2, 2), (7, 7)], [(2, 2), (7, 7)], 2⟩

/-! ### Association-list (dict) lemmas -/

theorem dget_append {α : Type} (k : Int) (m m' : List (Int × α)) :
    dget k (m ++ m') =
      match dget k m with
      | some v => some v
      | none => dget k m' := by
  induction m with
  | nil => simp [dget]
  | cons a m ih =>
    obtain ⟨k', v⟩ := a
    by_cases h : k' = k
    · simp [dget, h]
    · simp [dget, h, ih]

theorem dget_derase {α : Type} (k i : Int) (m : List (Int × α)) :
    dget k (derase i m) = if k = i then none else dget k m := by
  induction m with
  | nil => simp [dget, derase]
  | cons a m ih =>
    obtain ⟨k', v⟩ := a
    by_cases hki : k' = i
    · by_cases hk : k' = k
      · subst hki; subst hk
        simp [derase, dget, ih]
      · have hik : ¬ i = k := fun hh => hk (hki.trans hh)
        simp [derase, dget, hki, hk, ih, hik]
    · by_cases hk : k' = k
      · subst hk
        simp [derase, dget, hki]
      · simp [derase, dget, hki, hk, ih]

theorem dget_isSome_iff_mem {α : Type} (k : Int) (m : List (Int × α)) :
    (dget k m).isSome ↔ k ∈ m.map Prod.fst := by
  induction m with
  | nil => simp [dget]
  | cons a m ih =>
    obtain ⟨k', v⟩ := a
    by_cases h : k' = k
    · subst h; simp [dget]
    · have h' : ¬ k = k' := fun hh => h hh.symm
      simp [dget, h, h', ih]

theorem dget_eq_none_iff {α : Type} (k : Int) (m : List (Int × α)) :
    dget k m = none ↔ k ∉ m.map Prod.fst := by
  rw [← dget_isSome_iff_mem]
  cases dget k m <;> simp

theorem derase_sublist {α : Type} (i : Int) (m : List (Int × α)) :
    (derase i m).Sublist m := by
  induction m with
  | nil => simp [derase]
  | cons a m ih =>
    obtain ⟨k', v⟩ := a
    by_cases h : k' = i
    · rw [show derase i ((k', v) :: m) = derase i m by simp [derase, h]]
      exact ih.cons (k', v)
    · rw [show derase i ((k', v) :: m) = (k', v) :: derase i m by
        simp [derase, h]]
      exact ih.cons₂ (k', v)

theorem dget_filter_key {α : Type} (p : Int → Bool) (k : Int)
    (m : List (Int × α)) :
    dget k (m.filter (fun e => p e.1)) = if p k then dget k m else none := by
  induction m with
  | nil => simp [dget]
  | cons a m ih =>
    obtain ⟨k', v⟩ := a
    by_cases hk : k' = k
    · subst hk
      by_cases hp : p k' <;> simp [dget, hp, ih]
    · by_cases hp : p k' <;> simp [dget, hk, hp, ih]

theorem keys_filter_sublist {α : Type} (q : Int × α → Bool)
    (m : List (Int × α)) :
    ((m.filter q).map Prod.fst).Sublist (m.map Prod.fst) :=
  (List.filter_sublist m).map Prod.fst

/-! ### Cache step lemmas -/

theorem update_cache_length {α : Type} (c c' : FrameCache α) (i : Int) (f : α)
    (hsome : update_cache c i f = some c')
    (hlen : c.cache.length ≤ c.maxlen) :
    c'.cache.length ≤ c'.maxlen ∧ c'.maxlen = c.maxlen := by
  unfold update_cache at hsome
  by_cases hpresent : (dget i c.cache_index_map).isSome
  · simp only [hpresent, if_true] at hsome
    cases hsome
    exact ⟨hlen, rfl⟩
  · simp only [hpresent, if_false] at hsome
    by_cases hfull : c.cache.length = c.maxlen
    · simp only [hfull, if_true] at hsome
      cases hcache : c.cache with
      | nil =>
        rw [hcache] at hsome
        cases hsome
      | cons hd tl =>
        obtain ⟨j, g⟩ := hd
        rw [hcache] at hsome
        simp only at hsome
        cases hsome
        constructor
        · simp only [List.length_append, List.length_cons, List.length_nil]
          have : c.cache.length = tl.length + 1 := by rw [hcache]; simp
          omega
        · rfl
    · simp only [hfull, if_false] at hsome
      cases hsome
      constructor
      · simp only [List.length_append, List.length_cons, List.length_nil]
        omega
      · rfl

theorem putSeq_length {α : Type} (ops : List (Int × α)) :
    ∀ (c c' : FrameCache α), c.cache.length ≤ c.maxlen →
      putSeq c ops = some c' →
      c'.cache.length ≤ c'.maxlen ∧ c'.maxlen = c.maxlen := by
  induction ops with
  | nil =>
    intro c c' hlen hput
    cases hput
    exact ⟨hlen, rfl⟩
  | cons op ops ih =>
    intro c c' hlen hput
    obtain ⟨i, f⟩ := op
    simp only [putSeq] at hput
    cases hstep : update_cache c i f with
    | none => rw [hstep] at hput; cases hput
    | some c1 =>
      rw [hstep] at hput
      obtain ⟨h1, h2⟩ := update_cache_length c c1 i f hstep hlen
      obtain ⟨h3, h4⟩ := ih c1 c' (h2 ▸ h1) hput
      exact ⟨h3, h4.trans h2⟩

/-! ### Claim C5: inserting an already-present index is a no-op -/

/-- **C5**: `put(i, f2)` with `i` already cached leaves the whole cache pair
unchanged — the entire body of `_update_cache` sits under
`if idx not in self.cache_index_map`, so size, the stored frame for `i`, and
every entry's position in the eviction order are untouched. -/
theorem cache_put_duplicate_noop {α : Type} (c : FrameCache α) (i : Int)
    (f2 : α) (h : (dget i c.cache_index_map).isSome) :
    update_cache c i f2 = some c := by
  unfold update_cache
  simp [h]

/-- Witness for `cache_put_duplicate_noop` at a concrete two-entry cache. -/
theorem cache_put_duplicate_noop_witness :
    (dget 4 (⟨[((4 : Int), (9 : Nat))], [(4, 9)], 3⟩ :
        FrameCache Nat).cache_index_map).isSome
    ∧ update_cache (⟨[((4 : Int), (9 : Nat))], [(4, 9)], 3⟩ :
        FrameCache Nat) 4 10 =
      some ⟨[(4, 9)], [(4, 9)], 3⟩ :=
  ⟨by decide, cache_put_duplicate_noop _ 4 10 (by decide)⟩

/-! ### Claim C2: FIFO bound -/

/-- **C2**: (1) any sequence of `_update_cache` calls keeps the entry count
within `CACHE_SIZE`; (2) when a new index is inserted at capacity, the entry
evicted is the deque's left end — the earliest-inserted entry still present
(entries are only ever appended on the right and popped on the left, so deque
order is insertion order); (3) a cache `get` is a pure dict read and changes
nothing, in particular not the eviction order (FIFO, not LRU). -/
theorem cache_fifo_bound {α : Type} (c c' : FrameCache α)
    (ops : List (Int × α)) (idx j : Int) (f g : α) (rest : List (Int × α))
    (k : Int) (hlen : c.cache.length ≤ c.maxlen) :
    (putSeq c ops = some c' →
      c'.cache.length ≤ c'.maxlen ∧ c'.maxlen = c.maxlen)
    ∧ (c.cache = (j, g) :: rest → c.cache.length = c.maxlen →
        dget idx c.cache_index_map = none →
        (dget j c.cache_index_map).isSome →
        update_cache c idx f =
          some { cache := rest ++ [(idx, f)],
                 cache_index_map := dset idx f (derase j c.cache_index_map),
                 maxlen := c.maxlen }
        ∧ dget j (dset idx f (derase j c.cache_index_map)) = none)
    ∧ cacheGet c k = (dget k c.cache_index_map, c) := by
  refine ⟨fun hput => putSeq_length ops c c' hlen hput, ?_, rfl⟩
  intro hcache hfull habs hj
  have hji : j ≠ idx := by
    intro h
    rw [h, habs] at hj
    simp at hj
  constructor
  · have hfull' : ((j, g) :: rest).length = c.maxlen := hcache ▸ hfull
    unfold update_cache
    rw [hcache]
    simp [habs, hfull', hj]
  · have h1 : dget j (derase idx (derase j c.cache_index_map)) = none := by
      rw [dget_derase]
      by_cases h : j = idx
      · simp [h]
      · simp [h, dget_derase]
    have hij : ¬ idx = j := fun h => hji h.symm
    rw [dset, dget_append, h1]
    simp [dget, hij]

/-- Witness for `cache_fifo_bound`: a concrete capacity-2 cache, a two-put
sequence overflowing it twice, and the FIFO eviction of the oldest entry. -/
theorem cache_fifo_bound_witness :
    wCache2.cache.length ≤ wCache2.maxlen
    ∧ ((putSeq wCache2 [(2, 7), (3, 8)] = some wCache2' →
          wCache2'.cache.length ≤ wCache2'.maxlen
          ∧ wCache2'.maxlen = wCache2.maxlen)
      ∧ (wCache2.cache = (0, 5) :: [(1, 6)] →
          wCache2.cache.length = wCache2.maxlen →
          dget 2 wCache2.cache_index_map = none →
          (dget 0 wCache2.cache_index_map).isSome →
          update_cache wCache2 2 7 =
            some (FrameCache.mk ([(1, 6)] ++ [(2, 7)])
              (dset 2 7 (derase 0 wCache2.cache_index_map)) wCache2.maxlen)
          ∧ dget 0 (dset 2 7 (derase 0 wCache2.cache_index_map)) = none)
      ∧ cacheGet wCache2 1 = (dget 1 wCache2.cache_index_map, wCache2)) :=
  ⟨by decide, cache_fifo_bound wCache2 wCache2' [(2, 7), (3, 8)] 2 0 7 5
    [(1, 6)] 1 (by decide)⟩

/-! ### Claim C10: read/seek on a closed source -/

/-- **C10**: with no opened capture handle, `read` fails reporting the
current frame index and `seek` fails reporting `-1`; both leave the engine
state (current index, cache, session fields) entirely unchanged. -/
theorem closed_source_read_seek_fail (s : EngineState) (t : Int)
    (h : s.capOpen = false) :
    read s = ((false, none, s.current_frame_index), s)
    ∧ seek s t = ((false, none, -1), s) := by
  constructor
  · unfold read
    simp [h]
  · unfold seek
    simp [h]

/-- Witness for `closed_source_read_seek_fail` at a concrete closed state. -/
theorem closed_source_read_seek_fail_witness :
    (⟨false, 3, 10, 7, ⟨[(2, 2)], [(2, 2)], 5⟩, 0, true, 0⟩ :
        EngineState).capOpen = false
    ∧ (read ⟨false, 3, 10, 7, ⟨[(2, 2)], [(2, 2)], 5⟩, 0, true, 0⟩ =
        ((false, none, 7),
         ⟨false, 3, 10, 7, ⟨[(2, 2)], [(2, 2)], 5⟩, 0, true, 0⟩)
      ∧ seek ⟨false, 3, 10, 7, ⟨[(2, 2)], [(2, 2)], 5⟩, 0, true, 0⟩ 4 =
        ((false, none, -1),
         ⟨false, 3, 10, 7, ⟨[(2, 2)], [(2, 2)], 5⟩, 0, true, 0⟩)) :=
  ⟨rfl, closed_source_read_seek_fail _ 4 rfl⟩

/-! ### Claim C4: seek clamps the target first -/

/-- **C4**: `seek` computes `max(0, min(target, total_frames - 1))` right
after the open-check and every strategy decision (`seekClamped`) only ever
sees that clamped value; for a non-empty source the clamp lies in
`[0, total_frames - 1]`. -/
theorem seek_clamps_target (s : EngineState) (t : Int)
    (hopen : s.capOpen = true) (hN : 1 ≤ s.total_frames) :
    0 ≤ clampTarget s t ∧ clampTarget s t ≤ s.total_frames - 1
    ∧ seek s t = seekClamped s (clampTarget s t) := by
  refine ⟨le_max_left 0 _, ?_, ?_⟩
  · unfold clampTarget
    omega
  · unfold seek
    simp [hopen]

/-- Witness for `seek_clamps_target`: an out-of-range target on a fresh
10-frame source is clamped to 9. -/
theorem seek_clamps_target_witness :
    (loadedState 10 0 true 100).capOpen = true
    ∧ 1 ≤ (loadedState 10 0 true 100).total_frames
    ∧ (0 ≤ clampTarget (loadedState 10 0 true 100) 42
      ∧ clampTarget (loadedState 10 0 true 100) 42 ≤
          (loadedState 10 0 true 100).total_frames - 1
      ∧ seek (loadedState 10 0 true 100) 42 =
          seekClamped (loadedState 10 0 true 100)
            (clampTarget (loadedState 10 0 true 100) 42)) :=
  ⟨rfl, by decide, seek_clamps_target _ 42 rfl (by decide)⟩

/-! ### Claim C7: transcode cancellation cleans up -/

theorem transcodeLoop_cancelled (k : Nat) :
    ∀ (r i : Nat), i ≤ k → k ≤ i + r →
      transcodeLoop (some k) i r = (k, false) := by
  intro r
  induction r with
  | zero =>
    intro i h1 h2
    have : i = k := by omega
    subst this
    simp [transcodeLoop, transcodeFlag]
  | succ r ih =>
    intro i h1 h2
    by_cases hik : i < k
    · rw [show transcodeLoop (some k) i (r + 1) =
          transcodeLoop (some k) (i + 1) r by
        simp [transcodeLoop, transcodeFlag, hik]]
      exact ih (i + 1) (by omega) (by omega)
    · have : i = k := by omega
      subst this
      simp [transcodeLoop, transcodeFlag]

/-- **C7**: if the stop flag is cleared before the read loop finishes
(`cancel_at = some k` with `k ≤ nframes`), `ProxyGeneratorThread.run` removes
the partially written output file and emits `finished_signal(False, "")` —
no partial output is left behind, and exactly `k` frames were written. -/
theorem transcode_cancel_cleanup (env : TranscodeEnv) (k : Nat)
    (hcap : env.capOpens = true)
    (hw : env.writer_opens = true ∨ env.fallback_opens = true)
    (hc : env.cancel_at = some k) (hk : k ≤ env.nframes) :
    (transcodeRun env).output_exists = false
    ∧ (transcodeRun env).success = false
    ∧ (transcodeRun env).frames_written = k := by
  have hloop : transcodeLoop env.cancel_at 0 env.nframes = (k, false) := by
    rw [hc]
    exact transcodeLoop_cancelled k env.nframes 0 (Nat.zero_le k)
      (by omega)
  unfold transcodeRun
  rcases hw with hw | hw <;>
    simp [hcap, hw, hloop]

/-- Witness for `transcode_cancel_cleanup`: a 5-frame source cancelled
before the 4th read. -/
theorem transcode_cancel_cleanup_witness :
    (⟨true, 5, true, false, some 3⟩ : TranscodeEnv).capOpens = true
    ∧ ((⟨true, 5, true, false, some 3⟩ : TranscodeEnv).writer_opens = true
        ∨ (⟨true, 5, true, false, some 3⟩ : TranscodeEnv).fallback_opens =
            true)
    ∧ (⟨true, 5, true, false, some 3⟩ : TranscodeEnv).cancel_at = some 3
    ∧ 3 ≤ (⟨true, 5, true, false, some 3⟩ : TranscodeEnv).nframes
    ∧ ((transcodeRun ⟨true, 5, true, false, some 3⟩).output_exists = false
      ∧ (transcodeRun ⟨true, 5, true, false, some 3⟩).success = false
      ∧ (transcodeRun ⟨true, 5, true, false, some 3⟩).frames_written = 3) :=
  ⟨rfl, Or.inl rfl, rfl, by decide,
    transcode_cancel_cleanup _ 3 rfl (Or.inl rfl) rfl (by decide)⟩

/-! ### Claim C8: proxy output dimensions -/

theorem computeProxyDims_eq (w h th : Nat) (hc : 0 < th ∧ th < h) :
    computeProxyDims w h th =
      ((if (w * th / h) % 2 ≠ 0 then w * th / h + 1 else w * th / h),
       (if th % 2 ≠ 0 then th + 1 else th)) := by
  unfold computeProxyDims
  simp [hc]

theorem computeProxyDims_eq_keep (w h th : Nat) (hc : ¬ (0 < th ∧ th < h)) :
    computeProxyDims w h th =
      ((if w % 2 ≠ 0 then w + 1 else w), (if h % 2 ≠ 0 then h + 1 else h)) := by
  unfold computeProxyDims
  simp [hc]

/-- **C8**: the transcoder's output dimensions are always both even (an odd
value is bumped up by one), and in the downscale case the height is the
target height up to the even bump and the width is scaled by the same ratio
as the height — `|new_width * height - width * target_height| ≤ height`,
i.e. the aspect ratio is preserved up to the floor of the exact scaling and
the even rounding. -/
theorem proxy_dims_even_aspect (w h th : Nat) :
    2 ∣ (computeProxyDims w h th).1 ∧ 2 ∣ (computeProxyDims w h th).2
    ∧ (0 < th → th < h →
        ((computeProxyDims w h th).2 = th
          ∨ (computeProxyDims w h th).2 = th + 1)
        ∧ (computeProxyDims w h th).1 * h ≤ w * th + h
        ∧ w * th ≤ (computeProxyDims w h th).1 * h + h) := by
  have heven : ∀ n : Nat, 2 ∣ (if n % 2 ≠ 0 then n + 1 else n) := by
    intro n
    split <;> omega
  by_cases hc : 0 < th ∧ th < h
  · rw [computeProxyDims_eq w h th hc]
    refine ⟨heven _, heven _, ?_⟩
    intro hth hdown
    have h0 : 0 < h := hth.trans hdown
    have hd : h * (w * th / h) + w * th % h = w * th := Nat.div_add_mod _ _
    have hm : w * th % h < h := Nat.mod_lt _ h0
    have hle : (w * th / h) * h ≤ w * th := by
      have := Nat.mul_comm (w * th / h) h
      omega
    have hlt : w * th < (w * th / h) * h + h := by
      have := Nat.mul_comm (w * th / h) h
      omega
    refine ⟨?_, ?_, ?_⟩
    · show (if th % 2 ≠ 0 then th + 1 else th) = th
        ∨ (if th % 2 ≠ 0 then th + 1 else th) = th + 1
      split
      · exact Or.inr rfl
      · exact Or.inl rfl
    · show (if (w * th / h) % 2 ≠ 0 then w * th / h + 1 else w * th / h) * h ≤
        w * th + h
      split
      · rw [Nat.succ_mul]
        omega
      · omega
    · show w * th ≤
        (if (w * th / h) % 2 ≠ 0 then w * th / h + 1 else w * th / h) * h + h
      split
      · rw [Nat.succ_mul]
        omega
      · omega
  · rw [computeProxyDims_eq_keep w h th hc]
    refine ⟨heven _, heven _, ?_⟩
    intro hth hdown
    exact absurd ⟨hth, hdown⟩ hc

/-- Witness for `proxy_dims_even_aspect` at a 853×481 source downscaled to
height 479 (both outputs get rounded up to even). -/
theorem proxy_dims_even_aspect_witness :
    2 ∣ (computeProxyDims 853 481 479).1
    ∧ 2 ∣ (computeProxyDims 853 481 479).2
    ∧ (0 < 479 → 479 < 481 →
        ((computeProxyDims 853 481 479).2 = 479
          ∨ (computeProxyDims 853 481 479).2 = 479 + 1)
        ∧ (computeProxyDims 853 481 479).1 * 481 ≤ 853 * 479 + 481
        ∧ 853 * 479 ≤ (computeProxyDims 853 481 479).1 * 481 + 481) :=
  proxy_dims_even_aspect 853 481 479

/-! ### Claim C9: deque/dict consistency -/

theorem dget_dset {α : Type} (k i : Int) (f : α) (m : List (Int × α)) :
    dget k (dset i f m) = if k = i then some f else dget k m := by
  rw [dset, dget_append, dget_derase]
  by_cases h : k = i
  · simp [h, dget]
  · cases hm : dget k m with
    | none =>
      have h' : ¬ i = k := fun hh => h hh.symm
      simp [h, dget, h']
    | some v => simp [h]

theorem notIn_keys_derase {α : Type} (i : Int) (m : List (Int × α)) :
    i ∉ (derase i m).map Prod.fst := by
  rw [← dget_eq_none_iff, dget_derase]
  simp

theorem nodup_append_single {β : Type} (l : List β) (a : β) (h : l.Nodup)
    (ha : a ∉ l) : (l ++ [a]).Nodup := by
  simp [List.nodup_append, h, ha]

theorem nodup_keys_derase {α : Type} (i : Int) (m : List (Int × α))
    (h : (m.map Prod.fst).Nodup) : ((derase i m).map Prod.fst).Nodup :=
  h.sublist ((derase_sublist i m).map Prod.fst)

theorem nodup_keys_dset {α : Type} (i : Int) (f : α) (m : List (Int × α))
    (h : (m.map Prod.fst).Nodup) : ((dset i f m).map Prod.fst).Nodup := by
  rw [dset]
  simp only [List.map_append, List.map_cons, List.map_nil]
  exact nodup_append_single _ _ (nodup_keys_derase i m h) (notIn_keys_derase i m)

theorem cacheInv_update_cache {α : Type} (c c' : FrameCache α) (i : Int)
    (f : α) (hinv : cacheInv c) (h : update_cache c i f = some c') :
    cacheInv c' := by
  obtain ⟨hmem, hnodupC, hnodupM⟩ := hinv
  by_cases hpresent : (dget i c.cache_index_map).isSome
  · have hcc : c = c' := by
      unfold update_cache at h
      simpa [hpresent] using h
    exact hcc ▸ ⟨hmem, hnodupC, hnodupM⟩
  · have hiNot : i ∉ c.cache.map Prod.fst := fun hmm =>
      hpresent ((hmem i).mpr hmm)
    have habs : dget i c.cache_index_map = none := by
      cases hd : dget i c.cache_index_map with
      | none => rfl
      | some v => rw [hd] at hpresent; simp at hpresent
    by_cases hfull : c.cache.length = c.maxlen
    · cases hcache : c.cache with
      | nil =>
        have h0 : ([] : List (Int × α)).length = c.maxlen := hcache ▸ hfull
        unfold update_cache at h
        rw [hcache] at h
        simp [habs, ← h0] at h
      | cons hd tl =>
        obtain ⟨j, g⟩ := hd
        have hj : (dget j c.cache_index_map).isSome :=
          (hmem j).mpr (by rw [hcache]; simp)
        have heq : update_cache c i f =
            some (FrameCache.mk (tl ++ [(i, f)])
              (dset i f (derase j c.cache_index_map)) c.maxlen) := by
          have hfull' : ((j, g) :: tl).length = c.maxlen := hcache ▸ hfull
          unfold update_cache
          rw [hcache]
          simp [habs, hfull', hj]
        rw [heq] at h
        injection h with h
        subst h
        simp only [hcache, List.map_cons, List.nodup_cons] at hnodupC
        obtain ⟨hjtl, hnodupTl⟩ := hnodupC
        simp only [hcache, List.map_cons, List.mem_cons] at hiNot
        push_neg at hiNot
        obtain ⟨hij, hitl⟩ := hiNot
        simp only [hcache, List.map_cons] at hmem
        refine ⟨?_, ?_, ?_⟩
        · intro k
          show (dget k (dset i f (derase j c.cache_index_map))).isSome ↔ _
          rw [dget_dset, dget_derase]
          by_cases hk : k = i
          · subst hk
            simp [List.map_append]
          · by_cases hkj : k = j
            · subst hkj
              have hji : ¬ (k = i) := hk
              simp only [List.map_append, List.map_cons, List.map_nil]
              simp [hk, hjtl, fun hh : k = i => hk hh]
            · have hmemk := hmem k
              rw [if_neg hk, if_neg hkj]
              simp only [List.mem_cons] at hmemk
              rw [hmemk]
              simp [hk, hkj]
        · show ((tl ++ [(i, f)]).map Prod.fst).Nodup
          simp only [List.map_append, List.map_cons, List.map_nil]
          exact nodup_append_single _ _ hnodupTl hitl
        · show ((dset i f (derase j c.cache_index_map)).map Prod.fst).Nodup
          exact nodup_keys_dset i f _ (nodup_keys_derase j _ hnodupM)
    · have heq : update_cache c i f =
          some (FrameCache.mk (c.cache ++ [(i, f)])
            (dset i f c.cache_index_map) c.maxlen) := by
        unfold update_cache
        simp [habs, hfull]
      rw [heq] at h
      injection h with h
      subst h
      refine ⟨?_, ?_, ?_⟩
      · intro k
        show (dget k (dset i f c.cache_index_map)).isSome ↔ _
        rw [dget_dset]
        by_cases hk : k = i
        · subst hk
          simp [List.map_append]
        · simp only [List.map_append, List.map_cons, List.map_nil,
            List.mem_append, List.mem_singleton]
          simp [hk, hmem k]
      · show ((c.cache ++ [(i, f)]).map Prod.fst).Nodup
        simp only [List.map_append, List.map_cons, List.map_nil]
        exact nodup_append_single _ _ hnodupC hiNot
      · exact nodup_keys_dset i f _ hnodupM

theorem cacheInv_resize {α : Type} (c : FrameCache α) (n : Nat)
    (hinv : cacheInv c) : cacheInv (resizeCache c n) := by
  obtain ⟨hmem, hnodupC, hnodupM⟩ := hinv
  unfold resizeCache
  by_cases hn : n = c.maxlen
  · simp only [hn, if_true]
    exact ⟨hmem, hnodupC, hnodupM⟩
  · simp only [hn, if_false]
    have hsub : (if c.cache.length > n then
        c.cache.drop (c.cache.length - n) else c.cache).Sublist c.cache := by
      split
      · exact List.drop_sublist _ _
      · exact List.Sublist.refl _
    refine ⟨?_, ?_, ?_⟩
    · intro k
      show (dget k (c.cache_index_map.filter _)).isSome ↔ _
      rw [dget_filter_key (fun k => decide (k ∈
        (if c.cache.length > n then
          c.cache.drop (c.cache.length - n) else c.cache).map Prod.fst)) k]
      by_cases hk : k ∈ (if c.cache.length > n then
          c.cache.drop (c.cache.length - n) else c.cache).map Prod.fst
      · have hkc : k ∈ c.cache.map Prod.fst := (hsub.map Prod.fst).subset hk
        simp [hk, (hmem k).mpr hkc]
      · simp [hk]
    · exact hnodupC.sublist (hsub.map Prod.fst)
    · exact hnodupM.sublist (keys_filter_sublist _ _)

theorem cacheInv_clear {α : Type} (c : FrameCache α) :
    cacheInv (clearCache c) := by
  refine ⟨fun k => ?_, ?_, ?_⟩ <;> simp [clearCache, dget]

theorem update_settings_live_fc (s : EngineState) (n : Nat) (e : Int) :
    (update_settings_live s n e).fc = resizeCache s.fc n := by
  unfold update_settings_live
  by_cases h : s.is_fast_seek = true <;> simp [h]

/-- **C9**: the deque/dict pair stays mutually consistent — equal index
sets, no duplicates — across `_update_cache`, the live cache resize of
`update_settings_live`, the reset in `load_internal`, and `release`. -/
theorem cache_map_consistency (s : EngineState) (c' : FrameCache Int)
    (i f : Int) (n : Nat) (e : Int) (hs : cacheInv s.fc) :
    (update_cache s.fc i f = some c' → cacheInv c')
    ∧ cacheInv (update_settings_live s n e).fc
    ∧ cacheInv (load_internal_reset s).fc
    ∧ cacheInv (release s).fc := by
  refine ⟨fun h => cacheInv_update_cache s.fc c' i f hs h, ?_, ?_, ?_⟩
  · rw [update_settings_live_fc]
    exact cacheInv_resize s.fc n hs
  · exact cacheInv_clear s.fc
  · exact cacheInv_clear s.fc

theorem cacheInv_mk_self {α : Type} (l : List (Int × α)) (n : Nat)
    (hn : (l.map Prod.fst).Nodup) : cacheInv (FrameCache.mk l l n) :=
  ⟨fun k => dget_isSome_iff_mem k l, hn, hn⟩

/-- Witness for `cache_map_consistency` at a concrete engine state with a
full capacity-2 cache, an evicting insert, a shrink to capacity 1, and the
two clearing operations. -/
theorem cache_map_consistency_witness :
    cacheInv wEngine.fc
    ∧ ((update_cache wEngine.fc 7 7 = some wCacheC9 → cacheInv wCacheC9)
      ∧ cacheInv (update_settings_live wEngine 1 9).fc
      ∧ cacheInv (load_internal_reset wEngine).fc
      ∧ cacheInv (release wEngine).fc) :=
  ⟨cacheInv_mk_self _ _ (by decide),
    cache_map_consistency wEngine wCacheC9 7 7 1 9
      (cacheInv_mk_self _ _ (by decide))⟩

/-! ### Claim C6: proxy path determinism and rediscovery -/

theorem globMatch_proxyFileName (name : FsPath) (q : Nat) (ext : FsPath) :
    globMatch (name ++ "_proxy_".toList) ext (proxyFileName name q ext) =
      true := by
  unfold globMatch proxyFileName
  simp only [Bool.and_eq_true, decide_eq_true_eq]
  refine ⟨⟨?_, ?_⟩, ?_⟩
  · rw [List.append_assoc (name ++ "_proxy_".toList)]
    exact ⟨_, rfl⟩
  · have heq : name ++ "_proxy_".toList ++ (toString q).toList ++ 'p' :: ext =
        (name ++ "_proxy_".toList ++ (toString q).toList ++ ['p']) ++ ext := by
      simp
    rw [heq]
    exact ⟨_, rfl⟩
  · simp [List.length_append]
    omega

/-- **C6**: `generate_proxy_path` is a pure function of the original path,
the quality and the codec setting, always producing
`{proxies_dir}/{name}_proxy_{quality}p{ext}` with the extension decided by
the codec family (`.avi` for MJPG, `.mp4` otherwise); and
`find_existing_proxy` locates any sufficiently large file that
`generate_proxy_path` produced for the same original name and quality. -/
theorem proxy_path_deterministic_and_found (dir : FsPath)
    (codec : List Char) (path : FsPath) (q sz : Nat)
    (listing : List (FsPath × Nat)) (hpath : path ≠ []) (hsz : 1000 < sz)
    (hmem : (proxyFileName (splitextRoot (basename path)) q
        (get_proxy_extension codec), sz) ∈ listing) :
    generate_proxy_path dir codec path q =
      dir ++ '/' :: (splitextRoot (basename path) ++ "_proxy_".toList
        ++ (toString q).toList ++ 'p' :: get_proxy_extension codec)
    ∧ (get_proxy_extension codec = ".avi".toList
        ∨ get_proxy_extension codec = ".mp4".toList)
    ∧ (codec = "MJPG".toList → get_proxy_extension codec = ".avi".toList)
    ∧ (codec ≠ "MJPG".toList → get_proxy_extension codec = ".mp4".toList)
    ∧ find_existing_proxy listing path = true := by
  refine ⟨rfl, ?_, ?_, ?_, ?_⟩
  · unfold get_proxy_extension
    split
    · exact Or.inl rfl
    · exact Or.inr rfl
  · intro h
    simp [get_proxy_extension, h]
  · intro h
    unfold get_proxy_extension
    rw [if_neg h]
  · unfold find_existing_proxy
    rw [if_neg hpath, Bool.or_eq_true]
    by_cases hmjpg : codec = "MJPG".toList
    · have hext : get_proxy_extension codec = ".avi".toList := by
        simp [get_proxy_extension, hmjpg]
      rw [hext] at hmem
      refine Or.inl (List.any_eq_true.mpr ⟨_, hmem, ?_⟩)
      rw [globMatch_proxyFileName]
      simpa using hsz
    · have hext : get_proxy_extension codec = ".mp4".toList := by
        unfold get_proxy_extension
        rw [if_neg hmjpg]
      rw [hext] at hmem
      refine Or.inr (List.any_eq_true.mpr ⟨_, hmem, ?_⟩)
      rw [globMatch_proxyFileName]
      simpa using hsz

/-- Witness for `proxy_path_deterministic_and_found`: the MJPG proxy of
`/videos/match.mp4` at quality 540 is generated at
`/proxies/match_proxy_540p.avi` and rediscovered in a directory listing
holding exactly that 2000-byte file. -/
theorem proxy_path_deterministic_and_found_witness :
    "/videos/match.mp4".toList ≠ ([] : FsPath)
    ∧ 1000 < 2000
    ∧ (proxyFileName (splitextRoot (basename "/videos/match.mp4".toList)) 540
        (get_proxy_extension "MJPG".toList), 2000) ∈
        [(proxyFileName (splitextRoot (basename "/videos/match.mp4".toList))
          540 (get_proxy_extension "MJPG".toList), 2000)]
    ∧ (generate_proxy_path "/proxies".toList "MJPG".toList
        "/videos/match.mp4".toList 540 =
        "/proxies".toList ++ '/' ::
          (splitextRoot (basename "/videos/match.mp4".toList)
            ++ "_proxy_".toList ++ (toString 540).toList
            ++ 'p' :: get_proxy_extension "MJPG".toList)
      ∧ (get_proxy_extension "MJPG".toList = ".avi".toList
          ∨ get_proxy_extension "MJPG".toList = ".mp4".toList)
      ∧ ("MJPG".toList = "MJPG".toList →
          get_proxy_extension "MJPG".toList = ".avi".toList)
      ∧ ("MJPG".toList ≠ "MJPG".toList →
          get_proxy_extension "MJPG".toList = ".mp4".toList)
      ∧ find_existing_proxy
          [(proxyFileName (splitextRoot (basename "/videos/match.mp4".toList))
            540 (get_proxy_extension "MJPG".toList), 2000)]
          "/videos/match.mp4".toList = true) :=
  ⟨by decide, by decide, List.mem_singleton.mpr rfl,
    proxy_path_deterministic_and_found "/proxies".toList "MJPG".toList
      "/videos/match.mp4".toList 540 2000 _ (by decide) (by decide)
      (List.mem_singleton.mpr rfl)⟩

/-! ### Claim C1: cache-hit seek does not resynchronize the decoder -/

/-- **C1** (bug demonstration): on a fresh 10-frame source, six sequential
reads cache frames 0–5 and leave the decoder at position 6.  `seek(2)` is
then served from the cache and succeeds with reported index 2, but the
decoder position is left at 6 — the resynchronization to `target + 1 = 3`
demanded by the specification never happens — so the following `read()`
returns the frame at index 6 instead of the frame at index 3. -/
theorem seek_cache_hit_desync_trace :
    (seek (readN 6 (loadedState 10 0 true 100)) 2).1 = (true, some 2, 2)
    ∧ (seek (readN 6 (loadedState 10 0 true 100)) 2).2.capPos = 6
    ∧ (read (seek (readN 6 (loadedState 10 0 true 100)) 2).2).1 =
        (true, some 6, 6)
    ∧ (read (seek (readN 6 (loadedState 10 0 true 100)) 2).2).1 ≠
        (true, some 3, 3) :=
  ⟨by decide, by decide, by decide, by decide⟩

/-! ### Claim C3: cold-seek decode counts -/

theorem capRead_success (s : EngineState) (h1 : s.capOpen = true)
    (h2 : 0 ≤ s.capPos) (h3 : s.capPos < s.total_frames) :
    capRead s = (some s.capPos,
      { s with capPos := s.capPos + 1, decodes := s.decodes + 1 }) := by
  unfold capRead
  rw [if_pos ⟨h1, h2, h3⟩]

theorem read_success (s : EngineState) (h1 : s.capOpen = true)
    (h2 : 0 ≤ s.capPos) (h3 : s.capPos < s.total_frames) :
    read s = ((true, some s.capPos, s.capPos),
      { s with capPos := s.capPos + 1, decodes := s.decodes + 1,
               current_frame_index := s.capPos,
               fc := update_cacheT s.fc s.capPos s.capPos }) := by
  unfold read
  rw [capRead_success s h1 h2 h3, if_pos h1]
  have harith : s.capPos + 1 - 1 = s.capPos := by omega
  simp only [harith]
  rw [if_neg (by omega : ¬ s.capPos < 0)]

theorem seekAdvanceLoop_runs (k : Nat) :
    ∀ (fuel : Nat) (s : EngineState) (target : Int),
      s.capOpen = true → 0 ≤ s.capPos →
      s.capPos = s.current_frame_index + 1 →
      target = s.current_frame_index + ((k : Int) + 1) →
      target < s.total_frames → k + 1 ≤ fuel →
      ∃ s' : EngineState,
        seekAdvanceLoop fuel s target = (some (true, some target, target), s')
        ∧ s'.decodes = s.decodes + (k + 1) := by
  induction k with
  | zero =>
    intro fuel s target h1 h2 h3 h4 h5 h6
    obtain ⟨f, rfl⟩ : ∃ f, fuel = f + 1 := ⟨fuel - 1, by omega⟩
    have htc : target = s.capPos := by omega
    subst htc
    have hlt : s.current_frame_index < s.capPos := by omega
    have hread := read_success s h1 h2 h5
    simp only [seekAdvanceLoop, if_pos hlt, hread]
    exact ⟨_, rfl, by simp⟩
  | succ k ih =>
    intro fuel s target h1 h2 h3 h4 h5 h6
    obtain ⟨f, rfl⟩ : ∃ f, fuel = f + 1 := ⟨fuel - 1, by omega⟩
    have hlt : s.current_frame_index < target := by
      have : ((k : Int) + 1 + 1) > 0 := by omega
      omega
    have hcap : s.capPos < s.total_frames := by
      have hk : (0 : Int) ≤ (k : Int) := Int.natCast_nonneg k
      omega
    have hread := read_success s h1 h2 hcap
    simp only [seekAdvanceLoop, if_pos hlt, hread]
    rw [if_neg (by
      show ¬ s.capPos = target
      have hk : (0 : Int) ≤ (k : Int) := Int.natCast_nonneg k
      omega)]
    obtain ⟨s', hloop, hdec⟩ := ih f
      { s with capPos := s.capPos + 1, decodes := s.decodes + 1,
               current_frame_index := s.capPos,
               fc := update_cacheT s.fc s.capPos s.capPos } target
      h1 (by simp; omega) (by simp) (by simp; omega) (by simpa using h5)
      (by omega)
    refine ⟨s', hloop, ?_⟩
    rw [hdec]
    simp
    omega

theorem lookbackLoop_runs (k : Nat) :
    ∀ (fuel : Nat) (s : EngineState) (pos target : Int) (found : Option Int),
      s.capOpen = true → s.capPos = pos → 0 ≤ pos →
      target = pos + (k : Int) → target < s.total_frames → k + 2 ≤ fuel →
      ∃ s' : EngineState,
        lookbackLoop fuel s pos target found = (some target, s')
        ∧ s'.decodes = s.decodes + (k + 1) := by
  induction k with
  | zero =>
    intro fuel s pos target found h1 h2 h3 h4 h5 h6
    obtain ⟨f, rfl⟩ : ∃ f, fuel = f + 2 := ⟨fuel - 2, by omega⟩
    have htp : target = pos := by omega
    subst htp
    subst h2
    have hread := capRead_success s h1 h3 h5
    show ∃ s', lookbackLoop (f + 1 + 1) s s.capPos s.capPos found = _ ∧ _
    simp only [lookbackLoop, if_pos (le_refl s.capPos), hread]
    rw [if_neg (by omega : ¬ s.capPos + 1 ≤ s.capPos)]
    refine Exists.intro { s with capPos := s.capPos + 1, decodes := s.decodes + 1, fc := update_cacheT s.fc s.capPos s.capPos } ⟨?_, ?_⟩
    · simp
    · show s.decodes + 1 = s.decodes + (0 + 1)
      omega
  | succ k ih =>
    intro fuel s pos target found h1 h2 h3 h4 h5 h6
    obtain ⟨f, rfl⟩ : ∃ f, fuel = f + 1 := ⟨fuel - 1, by omega⟩
    subst h2
    have hk : (0 : Int) ≤ (k : Int) := Int.natCast_nonneg k
    have hle : s.capPos ≤ target := by omega
    have hcap : s.capPos < s.total_frames := by omega
    have hread := capRead_success s h1 h3 hcap
    simp only [lookbackLoop, if_pos hle, hread]
    rw [if_neg (by omega : ¬ s.capPos = target)]
    obtain ⟨s', hloop, hdec⟩ := ih f
      { s with capPos := s.capPos + 1, decodes := s.decodes + 1,
               fc := update_cacheT s.fc s.capPos s.capPos }
      (s.capPos + 1) target found
      h1 rfl (by omega) (by omega) h5 (by omega)
    refine ⟨s', hloop, ?_⟩
    rw [hdec]
    show s.decodes + 1 + (k + 1) = s.decodes + (k + 1 + 1)
    omega

/-- **C3** (counterexample to the claim as stated): the small-forward-step
branch of `seek` runs before the fast/slow strategy split.  From a cold
position (`current_frame_index = -1`, decoder at 0, empty cache) with
`is_fast_seek` (lookback 0), `seek(1)` decodes frames 0 and 1 — two decodes,
one extra frame beyond the target, not zero.  Likewise with lookback `L = 5`
(a selectable `seek_effort`), cold `seek(8)` decodes 9 frames, not
`min(8, 5) + 1 = 6`. -/
theorem seek_strategy_cold_counterexample :
    (seek (loadedState 20 0 true 100) 1).1 = (true, some 1, 1)
    ∧ (seek (loadedState 20 0 true 100) 1).2.decodes = 2
    ∧ (seek (loadedState 30 5 false 100) 8).1 = (true, some 8, 8)
    ∧ (seek (loadedState 30 5 false 100) 8).2.decodes = 9 :=
  ⟨by decide, by decide, by decide, by decide⟩

/-- **C3 as amended**: starting cold (fresh load: `current_frame_index = -1`,
decoder position 0, empty cache) on an `N`-frame source with `0 ≤ t < N`:
with lookback 0 (the fast-seek configuration) and `t = 0` or `t ≥ 10`,
`seek(t)` decodes exactly one frame — the target itself — and the
backward-lookback branch is never entered (it is guarded by
`smart_seek_lookback ≠ 0`); with lookback `L ≥ 1` and `t ≥ 10` or `L ≥ t`,
`seek(t)` decodes exactly `min(t, L) + 1` frames.  (For `1 ≤ t ≤ 9` the
small-forward-step branch instead decodes the `t + 1` frames `0..t`, which
equals `min(t, L) + 1` exactly when `L ≥ t` — see the counterexample.) -/
theorem seek_strategy_cold_amended (N L t : Int) (C : Nat) (fast : Bool)
    (h0 : 0 ≤ t) (hN : t < N) :
    (L = 0 → (t = 0 ∨ 10 ≤ t) →
      (seek (loadedState N L fast C) t).1 = (true, some t, t)
      ∧ (seek (loadedState N L fast C) t).2.decodes = 1)
    ∧ (1 ≤ L → (10 ≤ t ∨ t ≤ L) →
      (seek (loadedState N L fast C) t).1 = (true, some t, t)
      ∧ (seek (loadedState N L fast C) t).2.decodes = (min t L).toNat + 1) := by
  have hclamp : clampTarget (loadedState N L fast C) t = t := by
    show max 0 (min t (N - 1)) = t
    omega
  have hseek : seek (loadedState N L fast C) t =
      seekClamped (loadedState N L fast C) t := by
    unfold seek
    rw [if_pos (show (loadedState N L fast C).capOpen = true from rfl),
      hclamp]
  have case_small : t ≤ 9 →
      ∃ s', seekClamped (loadedState N L fast C) t = ((true, some t, t), s')
        ∧ s'.decodes = t.toNat + 1 := by
    intro ht9
    obtain ⟨s', hloop, hdec⟩ := seekAdvanceLoop_runs t.toNat
      ((loadedState N L fast C).total_frames.toNat + 1)
      (loadedState N L fast C) t rfl
      (by show (0 : Int) ≤ 0; omega)
      (by show (0 : Int) = -1 + 1; omega)
      (by show t = -1 + ((t.toNat : Int) + 1); omega)
      (by show t < N; exact hN)
      (by show t.toNat + 1 ≤ N.toNat + 1; omega)
    have hcond : 0 < t - (loadedState N L fast C).current_frame_index
        ∧ t - (loadedState N L fast C).current_frame_index ≤ 10 := by
      constructor
      · show 0 < t - (-1)
        omega
      · show t - (-1) ≤ 10
        omega
    refine ⟨s', ?_, by rw [hdec]; show 0 + (t.toNat + 1) = t.toNat + 1; omega⟩
    unfold seekClamped
    rw [if_pos hcond, hloop]
    rfl
  have case_direct : 10 ≤ t → L = 0 →
      ∃ s', seekClamped (loadedState N L fast C) t = ((true, some t, t), s')
        ∧ s'.decodes = 1 := by
    intro ht10 hL
    have hcond : ¬ (0 < t - (loadedState N L fast C).current_frame_index
        ∧ t - (loadedState N L fast C).current_frame_index ≤ 10) := by
      show ¬ (0 < t - (-1) ∧ t - (-1) ≤ 10)
      omega
    have hread := read_success
      (capSetPos (loadedState N L fast C) t) rfl
      (by show (0 : Int) ≤ t; omega) (by show t < N; exact hN)
    refine ⟨(read (capSetPos (loadedState N L fast C) t)).2, ?_, ?_⟩
    · unfold seekClamped
      rw [if_neg hcond]
      show seekSlow (loadedState N L fast C) t = _
      unfold seekSlow
      rw [if_pos (show (loadedState N L fast C).smart_seek_lookback = 0
        from hL), hread]
      rfl
    · rw [hread]
      rfl
  have case_look : 10 ≤ t → 1 ≤ L →
      ∃ s', seekClamped (loadedState N L fast C) t = ((true, some t, t), s')
        ∧ s'.decodes = (min t L).toNat + 1 := by
    intro ht10 hL
    have hcond : ¬ (0 < t - (loadedState N L fast C).current_frame_index
        ∧ t - (loadedState N L fast C).current_frame_index ≤ 10) := by
      show ¬ (0 < t - (-1) ∧ t - (-1) ≤ 10)
      omega
    obtain ⟨s', hloop, hdec⟩ := lookbackLoop_runs
      (t - max 0 (t -
        (loadedState N L fast C).smart_seek_lookback)).toNat
      ((t - max 0 (t -
        (loadedState N L fast C).smart_seek_lookback)).toNat + 2)
      (capSetPos (loadedState N L fast C)
        (max 0 (t - (loadedState N L fast C).smart_seek_lookback)))
      (max 0 (t - (loadedState N L fast C).smart_seek_lookback)) t none
      rfl rfl
      (by show (0 : Int) ≤ max 0 (t - L); omega)
      (by show t = max 0 (t - L) + ((t - max 0 (t - L)).toNat : Int); omega)
      (by show t < N; exact hN)
      (le_refl _)
    refine ⟨{ s' with current_frame_index := t }, ?_, ?_⟩
    · unfold seekClamped
      rw [if_neg hcond]
      show seekSlow (loadedState N L fast C) t = _
      unfold seekSlow
      rw [if_neg (show ¬ (loadedState N L fast C).smart_seek_lookback = 0
        from by show ¬ L = 0; omega), hloop]
    · show s'.decodes = (min t L).toNat + 1
      rw [hdec]
      show 0 + ((t - max 0 (t - L)).toNat + 1) = (min t L).toNat + 1
      omega
  constructor
  · intro hL ht
    rcases ht with ht0 | ht10
    · obtain ⟨s', heq, hdec⟩ := case_small (by omega)
      rw [hseek, heq]
      exact ⟨rfl, by rw [hdec]; omega⟩
    · obtain ⟨s', heq, hdec⟩ := case_direct ht10 hL
      rw [hseek, heq]
      exact ⟨rfl, hdec⟩
  · intro hL ht
    by_cases ht10 : 10 ≤ t
    · obtain ⟨s', heq, hdec⟩ := case_look ht10 hL
      rw [hseek, heq]
      exact ⟨rfl, hdec⟩
    · have htL : t ≤ L := by
        rcases ht with h | h
        · exact absurd h ht10
        · exact h
      obtain ⟨s', heq, hdec⟩ := case_small (by omega)
      rw [hseek, heq]
      refine ⟨rfl, ?_⟩
      rw [hdec]
      show t.toNat + 1 = (min t L).toNat + 1
      omega

/-- Witness for `seek_strategy_cold_amended`: a fast (lookback-0) cold seek
to frame 12 of a 30-frame source, and a lookback-5 cold seek to the same
frame. -/
theorem seek_strategy_cold_amended_witness :
    (0 : Int) ≤ 12 ∧ (12 : Int) < 30
    ∧ (((0 : Int) = 0 → ((12 : Int) = 0 ∨ (10 : Int) ≤ 12) →
        (seek (loadedState 30 0 true 100) 12).1 = (true, some 12, 12)
        ∧ (seek (loadedState 30 0 true 100) 12).2.decodes = 1)
      ∧ ((1 : Int) ≤ 0 → ((10 : Int) ≤ 12 ∨ (12 : Int) ≤ 0) →
        (seek (loadedState 30 0 true 100) 12).1 = (true, some 12, 12)
        ∧ (seek (loadedState 30 0 true 100) 12).2.decodes =
            (min (12 : Int) 0).toNat + 1))
    ∧ (((5 : Int) = 0 → ((12 : Int) = 0 ∨ (10 : Int) ≤ 12) →
        (seek (loadedState 30 5 false 100) 12).1 = (true, some 12, 12)
        ∧ (seek (loadedState 30 5 false 100) 12).2.decodes = 1)
      ∧ ((1 : Int) ≤ 5 → ((10 : Int) ≤ 12 ∨ (12 : Int) ≤ 5) →
        (seek (loadedState 30 5 false 100) 12).1 = (true, some 12, 12)
        ∧ (seek (loadedState 30 5 false 100) 12).2.decodes =
            (min (12 : Int) 5).toNat + 1)) :=
  ⟨by decide, by decide,
    seek_strategy_cold_amended 30 0 12 100 true (by decide) (by decide),
    seek_strategy_cold_amended 30 5 12 100 false (by decide) (by decide)⟩

end RunnerAnalizator
